import Mathlib

/-!
Verification of the use-case search engine (`fpa_use_case_finder`).

The development shallowly embeds the searcher module: records are a
structure, Python strings are Lean `String`, Python float scores are `ℚ`
(every weight is a multiple of 1/2, so float arithmetic is exact here),
Python's substring test `a in b` is `pyIn a b`, Python sets of tokens are
deduplicated lists, and Python's stable `list.sort(key=…, reverse=True)`
is the stable descending insertion sort `sortDesc`.
-/

/-- Python's substring test on character lists: does the needle occur as a
prefix of the haystack? -/
def isPfxL : List Char → List Char → Bool
  | [], _ => true
  | _ :: _, [] => false
  | a :: as, b :: bs => a == b && isPfxL as bs

/-- Does the needle occur as a contiguous sublist of the haystack
(at any position)?  Mirrors Python's `needle in hay` for strings:
in particular the empty needle occurs in every haystack. -/
def isSubL : List Char → List Char → Bool
  | n, [] => n.isEmpty
  | n, b :: bs => isPfxL n (b :: bs) || isSubL n bs

/-- Python's `needle in hay` on strings. -/
def pyIn (needle hay : String) : Bool := isSubL needle.toList hay.toList

/-- Python's `str.lower()` (ASCII case folding), defined by structural
recursion over the character list so that concrete instances evaluate. -/
def String.lower (s : String) : String := ⟨s.data.map Char.toLower⟩

/-- Python's `s.replace(',', ' ').replace('.', ' ')`. -/
def normPunct (s : String) : String :=
  ⟨s.data.map (fun c => if c == ',' || c == '.' then ' ' else c)⟩

/-- Helper for `pySplit`: scan the characters, accumulating the current
word in reverse; whitespace closes a word, empty words are dropped. -/
def splitWsAux : List Char → List Char → List String
  | [], cur => if cur.isEmpty then [] else [⟨cur.reverse⟩]
  | c :: cs, cur =>
    if c.isWhitespace then
      (if cur.isEmpty then splitWsAux cs [] else (⟨cur.reverse⟩ : String) :: splitWsAux cs [])
    else splitWsAux cs (c :: cur)

/-- Python's no-argument `str.split()`: split on whitespace runs,
dropping empty pieces. -/
def pySplit (s : String) : List String := splitWsAux s.data []

/-- Python's `set(s.split())`, as a duplicate-free list. -/
def tokenSet (s : String) : List String := (pySplit s).dedup

/-- `len(A & B)` for Python sets: `a` is already duplicate-free, so count
its members that also occur in `b`. -/
def interCount (a b : List String) : ℕ :=
  (a.filter (fun w => decide (w ∈ b))).length

theorem pyIn_empty_needle (s : String) : pyIn "" s = true := by
  show isSubL [] s.toList = true
  induction s.toList with
  | nil => rfl
  | cons b bs ih => simp [isSubL, isPfxL, ih]

/-- `FPACategory` enum from `categories.py`. -/
inductive FPACategory
  | BUDGETING
  | FORECASTING
  | VARIANCE_ANALYSIS
  | FINANCIAL_MODELING
  | REPORTING
  | DATA_INTEGRATION
  | SCENARIO_PLANNING
  | COMPLIANCE
  | AUTOMATION
  | EXCEL_INTEGRATION
deriving DecidableEq, Repr

/-- `ComplexityLevel` enum from `categories.py`. -/
inductive ComplexityLevel
  | BEGINNER
  | INTERMEDIATE
  | ADVANCED
  | EXPERT
deriving DecidableEq, Repr

/-- `ImplementationTime` enum from `categories.py`. -/
inductive ImplementationTime
  | MINUTES
  | HOURS
  | DAYS
  | WEEKS
deriving DecidableEq, Repr

/-- The `UseCase` dataclass from `use_cases.py` (the `date_added` timestamp
is omitted: it is never read by the searcher). -/
structure UseCase where
  id : String
  title : String
  description : String
  category : FPACategory
  subcategories : List String
  complexity : ComplexityLevel
  implementation_time : ImplementationTime
  benefits : List String
  example_prompts : List String
  tools_used : List String
  source : String
  source_url : Option String
  productivity_gain : Option String
  tags : List String
deriving DecidableEq, Repr

/-- The `SearchResult` dataclass from `searcher.py`. -/
structure SearchResult where
  use_case : UseCase
  relevance_score : ℚ
  matched_fields : List String
deriving DecidableEq, Repr

/-- `UseCaseDatabase.get_by_id`: first record with the given id, if any. -/
def getById (db : List UseCase) (ucId : String) : Option UseCase :=
  db.find? (fun uc => uc.id == ucId)

/-- Stable descending insertion by key: `a` is placed before the first
element whose key is `≤ key a`, so an element equal in key to earlier
elements stays after them. -/
def insDesc (k : α → ℚ) (a : α) : List α → List α
  | [] => [a]
  | b :: bs => if k b ≤ k a then a :: b :: bs else b :: insDesc k a bs

/-- Stable descending sort by key; models Python's stable
`list.sort(key=…, reverse=True)`. -/
def sortDesc (k : α → ℚ) : List α → List α
  | [] => []
  | a :: as => insDesc k a (sortDesc k as)

theorem length_insDesc (k : α → ℚ) (a : α) (l : List α) :
    (insDesc k a l).length = l.length + 1 := by
  induction l with
  | nil => rfl
  | cons b bs ih =>
    simp only [insDesc]
    split <;> simp [ih]

theorem length_sortDesc (k : α → ℚ) (l : List α) :
    (sortDesc k l).length = l.length := by
  induction l with
  | nil => rfl
  | cons a as ih => simp [sortDesc, length_insDesc, ih]

theorem mem_insDesc (k : α → ℚ) (a x : α) (l : List α) :
    x ∈ insDesc k a l ↔ x = a ∨ x ∈ l := by
  induction l with
  | nil => simp [insDesc]
  | cons b bs ih =>
    simp only [insDesc]
    split
    · simp
    · simp only [List.mem_cons, ih]
      tauto

theorem mem_sortDesc (k : α → ℚ) (x : α) (l : List α) :
    x ∈ sortDesc k l ↔ x ∈ l := by
  induction l with
  | nil => simp [sortDesc]
  | cons a as ih => simp [sortDesc, mem_insDesc, ih]

theorem pairwise_insDesc (k : α → ℚ) (a : α) (l : List α)
    (h : l.Pairwise (fun x y => k y ≤ k x)) :
    (insDesc k a l).Pairwise (fun x y => k y ≤ k x) := by
  induction l with
  | nil => simp [insDesc]
  | cons b bs ih =>
    rw [List.pairwise_cons] at h
    simp only [insDesc]
    split
    · rename_i hba
      rw [List.pairwise_cons]
      refine ⟨?_, List.pairwise_cons.mpr h⟩
      intro y hy
      rcases List.mem_cons.mp hy with rfl | hybs
      · exact hba
      · exact le_trans (h.1 y hybs) hba
    · rename_i hba
      rw [List.pairwise_cons]
      refine ⟨?_, ih h.2⟩
      intro y hy
      rcases (mem_insDesc k a y bs).mp hy with rfl | hybs
      · exact le_of_lt (lt_of_not_le hba)
      · exact h.1 y hybs

theorem pairwise_sortDesc (k : α → ℚ) (l : List α) :
    (sortDesc k l).Pairwise (fun x y => k y ≤ k x) := by
  induction l with
  | nil => simp [sortDesc]
  | cons a as ih => exact pairwise_insDesc k a _ ih

theorem filter_keyeq_insDesc (k : α → ℚ) (s : ℚ) (a : α) (l : List α) :
    (insDesc k a l).filter (fun x => decide (k x = s)) =
      if k a = s then a :: l.filter (fun x => decide (k x = s))
      else l.filter (fun x => decide (k x = s)) := by
  induction l with
  | nil =>
    simp only [insDesc, List.filter]
    by_cases h : k a = s <;> simp [h]
  | cons b bs ih =>
    simp only [insDesc]
    split
    · rename_i hba
      by_cases h : k a = s <;> simp [List.filter_cons, h]
    · rename_i hba
      have hab : k a < k b := lt_of_not_le hba
      by_cases h : k a = s
      · have hb : ¬ (k b = s) := by
          intro hbs
          rw [h, ← hbs] at hab
          exact lt_irrefl _ hab
        simp [List.filter_cons, hb, ih, h]
      · simp only [List.filter_cons, ih, if_neg h]

theorem filter_keyeq_sortDesc (k : α → ℚ) (s : ℚ) (l : List α) :
    (sortDesc k l).filter (fun x => decide (k x = s)) =
      l.filter (fun x => decide (k x = s)) := by
  induction l with
  | nil => rfl
  | cons a as ih =>
    simp only [sortDesc, filter_keyeq_insDesc, List.filter_cons]
    by_cases h : k a = s <;> simp [h, ih]

/-- One for-loop of `_calculate_relevance` over a sequence field
(`tags` / `tools_used`): each matching entry adds `w` to the score and
marks `fld` once. -/
def fieldLoop (cond : String → Bool) (w : ℚ) (fld : String)
    (l : List String) (acc : ℚ × List String) : ℚ × List String :=
  l.foldl (fun a t =>
    if cond t then
      (a.1 + w, if a.2.contains fld then a.2 else a.2 ++ [fld])
    else a) acc

/-- Title block of `_calculate_relevance` (lines 119-128). -/
def titleStep (uc : UseCase) (query : String) (queryKeywords : List String)
    (acc : ℚ × List String) : ℚ × List String :=
  if pyIn query uc.title.lower then
    (acc.1 + 10, acc.2 ++ ["title"])
  else
    let titleKeywords := pySplit uc.title.lower
    let titleOverlap := interCount queryKeywords titleKeywords
    if 0 < titleOverlap then ((acc.1 + (titleOverlap : ℚ) * 3), acc.2 ++ ["title"])
    else acc

/-- Description block of `_calculate_relevance` (lines 130-140). -/
def descStep (uc : UseCase) (query : String) (queryKeywords : List String)
    (acc : ℚ × List String) : ℚ × List String :=
  if pyIn query uc.description.lower then
    (acc.1 + 5, acc.2 ++ ["description"])
  else
    let descKeywords := pySplit uc.description.lower
    let descOverlap := interCount queryKeywords descKeywords
    if 0 < descOverlap then
      ((acc.1 + (descOverlap : ℚ) * (3 / 2)),
       if acc.2.contains "description" then acc.2 else acc.2 ++ ["description"])
    else acc

/-- Tags block of `_calculate_relevance` (lines 142-147). -/
def tagsStep (uc : UseCase) (query : String) (acc : ℚ × List String) :
    ℚ × List String :=
  fieldLoop (fun tag => pyIn tag.lower query || pyIn query tag.lower)
    4 "tags" uc.tags acc

/-- Example-prompts block of `_calculate_relevance` (lines 149-155): the
loop breaks after the first matching prompt, so only existence matters. -/
def promptsStep (uc : UseCase) (query : String) (acc : ℚ × List String) :
    ℚ × List String :=
  if uc.example_prompts.any (fun p => pyIn query p.lower) then
    (acc.1 + 3, if acc.2.contains "prompts" then acc.2 else acc.2 ++ ["prompts"])
  else acc

/-- Tools block of `_calculate_relevance` (lines 157-162). -/
def toolsStep (uc : UseCase) (query : String) (acc : ℚ × List String) :
    ℚ × List String :=
  fieldLoop (fun t => pyIn t.lower query || pyIn query t.lower)
    2 "tools" uc.tools_used acc

/-- Benefits block of `_calculate_relevance` (lines 164-170): the loop
breaks after the first matching benefit. -/
def benefitsStep (uc : UseCase) (query : String) (acc : ℚ × List String) :
    ℚ × List String :=
  if uc.benefits.any (fun b => pyIn query b.lower) then
    (acc.1 + 3 / 2, if acc.2.contains "benefits" then acc.2 else acc.2 ++ ["benefits"])
  else acc

/-- `UseCaseSearcher._calculate_relevance`: start from score 0 and no
matched fields and run the six field blocks in program order.  `query` is
the already-lowercased query and `queryKeywords` its token set, exactly as
passed by `search`. -/
def calcRelevance (uc : UseCase) (query : String) (queryKeywords : List String) :
    ℚ × List String :=
  benefitsStep uc query
    (toolsStep uc query
      (promptsStep uc query
        (tagsStep uc query
          (descStep uc query queryKeywords
            (titleStep uc query queryKeywords (0, []))))))

theorem fieldLoop_fst (cond : String → Bool) (w : ℚ) (fld : String)
    (l : List String) (acc : ℚ × List String) :
    (fieldLoop cond w fld l acc).1 = acc.1 + w * ((l.filter cond).length : ℚ) := by
  induction l generalizing acc with
  | nil => simp [fieldLoop]
  | cons t ts ih =>
    simp only [fieldLoop, List.foldl_cons] at *
    by_cases h : cond t
    · rw [if_pos h, ih, List.filter_cons_of_pos h, List.length_cons]
      push_cast
      ring
    · rw [if_neg h, ih, List.filter_cons_of_neg h]

theorem titleStep_fst (uc : UseCase) (query : String) (qk : List String)
    (acc : ℚ × List String) :
    (titleStep uc query qk acc).1 = acc.1 +
      (if pyIn query uc.title.lower then (10 : ℚ)
       else (interCount qk (pySplit uc.title.lower) : ℚ) * 3) := by
  simp only [titleStep]
  split
  · rfl
  · split
    · rfl
    · rename_i hov
      have h0 : interCount qk (pySplit uc.title.lower) = 0 := by omega
      simp [h0]

theorem descStep_fst (uc : UseCase) (query : String) (qk : List String)
    (acc : ℚ × List String) :
    (descStep uc query qk acc).1 = acc.1 +
      (if pyIn query uc.description.lower then (5 : ℚ)
       else (interCount qk (pySplit uc.description.lower) : ℚ) * (3 / 2)) := by
  simp only [descStep]
  split
  · rfl
  · split
    · rfl
    · rename_i hov
      have h0 : interCount qk (pySplit uc.description.lower) = 0 := by omega
      simp [h0]

theorem tagsStep_fst (uc : UseCase) (query : String) (acc : ℚ × List String) :
    (tagsStep uc query acc).1 = acc.1 +
      4 * ((uc.tags.filter
        (fun tag => pyIn tag.lower query || pyIn query tag.lower)).length : ℚ) := by
  simp [tagsStep, fieldLoop_fst]

theorem promptsStep_fst (uc : UseCase) (query : String) (acc : ℚ × List String) :
    (promptsStep uc query acc).1 = acc.1 +
      (if uc.example_prompts.any (fun p => pyIn query p.lower) then (3 : ℚ) else 0) := by
  simp only [promptsStep]
  split <;> simp

theorem toolsStep_fst (uc : UseCase) (query : String) (acc : ℚ × List String) :
    (toolsStep uc query acc).1 = acc.1 +
      2 * ((uc.tools_used.filter
        (fun t => pyIn t.lower query || pyIn query t.lower)).length : ℚ) := by
  simp [toolsStep, fieldLoop_fst]

theorem benefitsStep_fst (uc : UseCase) (query : String) (acc : ℚ × List String) :
    (benefitsStep uc query acc).1 = acc.1 +
      (if uc.benefits.any (fun b => pyIn query b.lower) then (3 / 2 : ℚ) else 0) := by
  simp only [benefitsStep]
  split <;> simp

/-- The score computed by `_calculate_relevance` is exactly the weight
table of the spec, field by field. -/
theorem calcRelevance_fst (uc : UseCase) (query : String) (qk : List String) :
    (calcRelevance uc query qk).1 =
      (if pyIn query uc.title.lower then (10 : ℚ)
       else (interCount qk (pySplit uc.title.lower) : ℚ) * 3)
      + (if pyIn query uc.description.lower then (5 : ℚ)
         else (interCount qk (pySplit uc.description.lower) : ℚ) * (3 / 2))
      + 4 * ((uc.tags.filter
          (fun tag => pyIn tag.lower query || pyIn query tag.lower)).length : ℚ)
      + (if uc.example_prompts.any (fun p => pyIn query p.lower) then (3 : ℚ) else 0)
      + 2 * ((uc.tools_used.filter
          (fun t => pyIn t.lower query || pyIn query t.lower)).length : ℚ)
      + (if uc.benefits.any (fun b => pyIn query b.lower) then (3 / 2 : ℚ) else 0) := by
  simp only [calcRelevance, benefitsStep_fst, toolsStep_fst, promptsStep_fst,
    tagsStep_fst, descStep_fst, titleStep_fst]
  ring

theorem mem_snd_fieldLoop (cond : String → Bool) (w : ℚ) (fld x : String)
    (l : List String) (acc : ℚ × List String) (h : x ∈ acc.2) :
    x ∈ (fieldLoop cond w fld l acc).2 := by
  induction l generalizing acc with
  | nil => exact h
  | cons t ts ih =>
    simp only [fieldLoop, List.foldl_cons] at *
    by_cases hc : cond t
    · rw [if_pos hc]
      apply ih
      simp only []
      split
      · exact h
      · exact List.mem_append_left _ h
    · rw [if_neg hc]
      exact ih _ h

theorem mem_snd_descStep (uc : UseCase) (query : String) (qk : List String)
    (x : String) (acc : ℚ × List String) (h : x ∈ acc.2) :
    x ∈ (descStep uc query qk acc).2 := by
  simp only [descStep]
  split
  · exact List.mem_append_left _ h
  · split
    · simp only []
      split
      · exact h
      · exact List.mem_append_left _ h
    · exact h

theorem mem_snd_promptsStep (uc : UseCase) (query : String)
    (x : String) (acc : ℚ × List String) (h : x ∈ acc.2) :
    x ∈ (promptsStep uc query acc).2 := by
  simp only [promptsStep]
  split
  · simp only []
    split
    · exact h
    · exact List.mem_append_left _ h
  · exact h

theorem mem_snd_benefitsStep (uc : UseCase) (query : String)
    (x : String) (acc : ℚ × List String) (h : x ∈ acc.2) :
    x ∈ (benefitsStep uc query acc).2 := by
  simp only [benefitsStep]
  split
  · simp only []
    split
    · exact h
    · exact List.mem_append_left _ h
  · exact h

/-- When the lowered query occurs in the lowered title, the scorer marks
`"title"` as a matched field. -/
theorem title_mem_calcRelevance (uc : UseCase) (query : String) (qk : List String)
    (ht : pyIn query uc.title.lower = true) :
    "title" ∈ (calcRelevance uc query qk).2 := by
  unfold calcRelevance
  apply mem_snd_benefitsStep
  apply mem_snd_fieldLoop
  apply mem_snd_promptsStep
  apply mem_snd_fieldLoop
  apply mem_snd_descStep
  simp [titleStep, ht]

theorem titleContrib_nonneg (uc : UseCase) (query : String) (qk : List String) :
    0 ≤ (if pyIn query uc.title.lower then (10 : ℚ)
         else (interCount qk (pySplit uc.title.lower) : ℚ) * 3) := by
  split <;> positivity

theorem descContrib_nonneg (uc : UseCase) (query : String) (qk : List String) :
    0 ≤ (if pyIn query uc.description.lower then (5 : ℚ)
         else (interCount qk (pySplit uc.description.lower) : ℚ) * (3 / 2)) := by
  split <;> positivity

theorem promptsContrib_nonneg (uc : UseCase) (query : String) :
    0 ≤ (if uc.example_prompts.any (fun p => pyIn query p.lower) then (3 : ℚ) else 0) := by
  split <;> norm_num

theorem benefitsContrib_nonneg (uc : UseCase) (query : String) :
    0 ≤ (if uc.benefits.any (fun b => pyIn query b.lower) then (3 / 2 : ℚ) else 0) := by
  split <;> norm_num

/-- The relevance score is a sum of nonnegative contributions. -/
theorem calcRelevance_fst_nonneg (uc : UseCase) (query : String) (qk : List String) :
    0 ≤ (calcRelevance uc query qk).1 := by
  rw [calcRelevance_fst]
  have h1 := titleContrib_nonneg uc query qk
  have h2 := descContrib_nonneg uc query qk
  have h3 := promptsContrib_nonneg uc query
  have h4 := benefitsContrib_nonneg uc query
  have h5 : (0 : ℚ) ≤ 4 * ((uc.tags.filter
      (fun tag => pyIn tag.lower query || pyIn query tag.lower)).length : ℚ) := by
    positivity
  have h6 : (0 : ℚ) ≤ 2 * ((uc.tools_used.filter
      (fun t => pyIn t.lower query || pyIn query t.lower)).length : ℚ) := by
    positivity
  linarith

/-- If the lowered query occurs in the lowered title, the score is at
least the 10.0 title bonus. -/
theorem calcRelevance_fst_ge_ten (uc : UseCase) (query : String) (qk : List String)
    (ht : pyIn query uc.title.lower = true) :
    10 ≤ (calcRelevance uc query qk).1 := by
  rw [calcRelevance_fst]
  rw [if_pos ht]
  have h2 := descContrib_nonneg uc query qk
  have h3 := promptsContrib_nonneg uc query
  have h4 := benefitsContrib_nonneg uc query
  have h5 : (0 : ℚ) ≤ 4 * ((uc.tags.filter
      (fun tag => pyIn tag.lower query || pyIn query tag.lower)).length : ℚ) := by
    positivity
  have h6 : (0 : ℚ) ≤ 2 * ((uc.tools_used.filter
      (fun t => pyIn t.lower query || pyIn query t.lower)).length : ℚ) := by
    positivity
  linarith

/-- The filter pass of `search` (lines 88-92): a record survives unless a
non-empty category list excludes its category, or a complexity filter
differs from its complexity.  `categories and …` in Python treats both
`None` and the empty list as "no filter". -/
def passesFilters (categories : Option (List FPACategory))
    (complexity : Option ComplexityLevel) (uc : UseCase) : Bool :=
  (match categories with
   | none => true
   | some cs => cs.isEmpty || cs.contains uc.category)
  && (match complexity with
      | none => true
      | some c => uc.complexity == c)

/-- The `SearchResult` built by `search` for one record. -/
def mkResult (uc : UseCase) (query : String) (qk : List String) : SearchResult :=
  ⟨uc, (calcRelevance uc query qk).1, (calcRelevance uc query qk).2⟩

/-- The score-pass of `UseCaseSearcher.search` (lines 85-102): records in
catalog order that pass the filters and have positive score, before
sorting and truncation. -/
def collectResults (db : List UseCase) (query : String)
    (categories : Option (List FPACategory)) (complexity : Option ComplexityLevel) :
    List SearchResult :=
  let queryLower := query.lower
  let queryKeywords := tokenSet (normPunct queryLower)
  (db.filter (passesFilters categories complexity)).filterMap (fun uc =>
    let r := mkResult uc queryLower queryKeywords
    if 0 < r.relevance_score then some r else none)

/-- `UseCaseSearcher.search`: filter, score, stable descending sort by
relevance score, truncate to `limit`. -/
def search (db : List UseCase) (query : String)
    (categories : Option (List FPACategory)) (complexity : Option ComplexityLevel)
    (limit : ℕ) : List SearchResult :=
  (sortDesc (fun r => r.relevance_score) (collectResults db query categories complexity)).take limit

theorem filterMap_ite_pos (g : α → β) (k : β → ℚ) (l : List α) :
    (l.filterMap (fun x => if 0 < k (g x) then some (g x) else none)) =
      (l.map g).filter (fun b => decide (0 < k b)) := by
  induction l with
  | nil => rfl
  | cons x xs ih =>
    simp only [List.filterMap_cons, List.map_cons, List.filter_cons]
    by_cases h : 0 < k (g x) <;> simp [h, ih]

/-- The score pass is the filtered image of the per-record scorer. -/
theorem collectResults_eq_filter_map (db : List UseCase) (query : String)
    (categories : Option (List FPACategory)) (complexity : Option ComplexityLevel) :
    collectResults db query categories complexity =
      ((db.filter (passesFilters categories complexity)).map
          (fun uc => mkResult uc query.lower (tokenSet (normPunct query.lower)))).filter
        (fun r => decide (0 < r.relevance_score)) := by
  unfold collectResults
  exact filterMap_ite_pos
    (fun uc => mkResult uc query.lower (tokenSet (normPunct query.lower)))
    SearchResult.relevance_score _

/-- Every element of `collectResults` has positive score. -/
theorem pos_of_mem_collectResults (db : List UseCase) (query : String)
    (categories : Option (List FPACategory)) (complexity : Option ComplexityLevel)
    (r : SearchResult) (h : r ∈ collectResults db query categories complexity) :
    0 < r.relevance_score := by
  rw [collectResults_eq_filter_map] at h
  have := List.of_mem_filter h
  simpa using this

/-- Every search result has positive score. -/
theorem pos_of_mem_search (db : List UseCase) (query : String)
    (categories : Option (List FPACategory)) (complexity : Option ComplexityLevel)
    (limit : ℕ) (r : SearchResult) (h : r ∈ search db query categories complexity limit) :
    0 < r.relevance_score := by
  have h1 : r ∈ sortDesc (fun r => r.relevance_score)
      (collectResults db query categories complexity) :=
    List.mem_of_mem_take h
  exact pos_of_mem_collectResults db query categories complexity r
    ((mem_sortDesc _ r _).mp h1)

/-- Per-record similarity score of `get_similar_use_cases` (lines 186-202):
category, distinct-tag overlap, complexity, distinct-tool overlap. -/
def simScore (uc src : UseCase) : ℚ :=
  (if uc.category == src.category then (5 : ℚ) else 0)
  + (interCount uc.tags.dedup src.tags : ℚ) * 2
  + (if uc.complexity == src.complexity then (1 : ℚ) else 0)
  + (interCount uc.tools_used.dedup src.tools_used : ℚ) * (3 / 2)

/-- `UseCaseSearcher.get_similar_use_cases`: empty on unknown id; otherwise
score every other record, keep positive scores, stable descending sort,
truncate, drop the scores. -/
def getSimilarUseCases (db : List UseCase) (ucId : String) (limit : ℕ) :
    List UseCase :=
  match getById db ucId with
  | none => []
  | some src =>
    ((sortDesc (fun p => p.2)
      ((db.filter (fun uc => uc.id != ucId)).filterMap (fun uc =>
        if 0 < simScore uc src then some (uc, simScore uc src) else none))).take limit).map
      Prod.fst

/-- The `user_context` dictionary of `get_recommended_use_cases`: each of
the four recognized keys may be absent. -/
structure UserContext where
  tools : Option (List String)
  challenges : Option (List String)
  role : Option String
  experience : Option String

/-- Tools block of `get_recommended_use_cases` (lines 231-235). -/
def toolsScore (uc : UseCase) : Option (List String) → ℚ
  | none => 0
  | some ts =>
    ts.foldl (fun s tool =>
      if uc.tools_used.any (fun t => pyIn tool.lower t.lower) then s + 3 else s) 0

/-- Challenges block of `get_recommended_use_cases` (lines 237-245): for
each challenge, +4.0 when it occurs in the description, and +2.0 for each
benefit it occurs in. -/
def challengesScore (uc : UseCase) (chs : List String) : ℚ :=
  chs.foldl (fun s challenge =>
    let cl := challenge.lower
    let s1 := if pyIn cl uc.description.lower then s + 4 else s
    uc.benefits.foldl (fun s2 b => if pyIn cl b.lower then s2 + 2 else s2) s1) 0

/-- The fixed `role_category_map` (lines 250-256), in insertion order. -/
def roleCategoryMap : List (String × List FPACategory) :=
  [("budget", [FPACategory.BUDGETING]),
   ("forecast", [FPACategory.FORECASTING]),
   ("analyst", [FPACategory.VARIANCE_ANALYSIS, FPACategory.FINANCIAL_MODELING]),
   ("manager", [FPACategory.REPORTING, FPACategory.SCENARIO_PLANNING]),
   ("controller", [FPACategory.COMPLIANCE, FPACategory.AUTOMATION])]

/-- Role block of `get_recommended_use_cases` (lines 247-259). -/
def roleScore (uc : UseCase) : Option String → ℚ
  | none => 0
  | some role =>
    roleCategoryMap.foldl (fun s kv =>
      if pyIn kv.1 role.lower && kv.2.contains uc.category then s + 5 else s) 0

/-- Experience block of `get_recommended_use_cases` (lines 261-264):
`user_context.get('experience', 'intermediate') == 'beginner'`. -/
def expScore (uc : UseCase) (experience : Option String) : ℚ :=
  if (match experience with | none => "intermediate" | some e => e) == "beginner" then
    (if uc.complexity == ComplexityLevel.BEGINNER
        || uc.complexity == ComplexityLevel.INTERMEDIATE then (2 : ℚ) else 0)
  else 0

/-- Per-record score of `get_recommended_use_cases`: the four blocks are
accumulated in program order. -/
def recommendScore (uc : UseCase) (ctx : UserContext) : ℚ :=
  toolsScore uc ctx.tools
  + (match ctx.challenges with | none => 0 | some chs => challengesScore uc chs)
  + roleScore uc ctx.role
  + expScore uc ctx.experience

/-- `UseCaseSearcher.get_recommended_use_cases`: keep positive scores,
stable descending sort, top 10, drop the scores. -/
def getRecommendedUseCases (db : List UseCase) (ctx : UserContext) : List UseCase :=
  let scores := db.filterMap (fun uc =>
    if 0 < recommendScore uc ctx then some (uc, recommendScore uc ctx) else none)
  ((sortDesc (fun p => p.2) scores).take 10).map Prod.fst

/-- The fixed `key_phrases` list of `search_by_prompt` (lines 283-289). -/
def keyPhrases : List String :=
  ["budget", "forecast", "variance", "model", "report", "dashboard",
   "automate", "excel", "dcf", "lbo", "consolidate", "scenario",
   "sensitivity", "monte carlo", "cash flow", "revenue", "expense",
   "audit", "compliance", "sox", "erp", "integration", "api",
   "kpi", "close", "month-end", "vba", "python", "sql"]

/-- The key phrases present (case-insensitively) in the task text. -/
def foundPhrases (t : String) : List String :=
  keyPhrases.filter (fun p => pyIn p t.lower)

/-- One step of the `combined_results` dict merge (lines 303-308): a new
record id is appended; an existing entry gets the new relevance score
added onto its stored score.  Insertion order is preserved, as for a
Python dict. -/
def addResult (m : List (String × SearchResult)) (r : SearchResult) :
    List (String × SearchResult) :=
  if m.any (fun kv => kv.1 == r.use_case.id) then
    m.map (fun kv =>
      if kv.1 == r.use_case.id then
        (kv.1, SearchResult.mk kv.2.use_case
          (kv.2.relevance_score + r.relevance_score) kv.2.matched_fields)
      else kv)
  else m ++ [(r.use_case.id, r)]

/-- The `combined_results` dict after merging the per-phrase searches
(each with limit 5), as an insertion-ordered association list. -/
def combinedResults (db : List UseCase) (t : String) :
    List (String × SearchResult) :=
  (foundPhrases t).foldl
    (fun m phrase => (search db phrase none none 5).foldl addResult m) []

/-- `UseCaseSearcher.search_by_prompt`: fall back to plain search when no
key phrase occurs; otherwise sort the merged dict values by accumulated
score, descending, and truncate to 10. -/
def searchByPrompt (db : List UseCase) (t : String) : List SearchResult :=
  if (foundPhrases t).isEmpty then search db t none none 10
  else
    (sortDesc (fun r => r.relevance_score)
      ((combinedResults db t).map Prod.snd)).take 10

/-- Total relevance score stored in the merge accumulator under a given
record id (with unique keys this is the single entry's score, and 0 when
the id is absent). -/
def accScore : List (String × SearchResult) → String → ℚ
  | [], _ => 0
  | kv :: t, ucId => (if kv.1 == ucId then kv.2.relevance_score else 0) + accScore t ucId

/-- Total relevance score a record id receives in one result list. -/
def idScore : List SearchResult → String → ℚ
  | [], _ => 0
  | r :: t, ucId => (if r.use_case.id == ucId then r.relevance_score else 0) + idScore t ucId

/-- The stopword set of `_extract_keywords` (lines 54-58). -/
def stopwords : List String :=
  ["a", "an", "the", "and", "or", "but", "in", "on", "at", "to",
   "for", "of", "with", "by", "from", "as", "is", "was", "are",
   "were", "been", "be", "have", "has", "had", "do", "does",
   "did", "will", "would", "could", "should", "may", "might",
   "can", "that", "this", "these", "those"]

/-- `UseCaseSearcher._extract_keywords`: tokenize title, description and
tags, drop short tokens and stopwords.  Python returns `list(set(...))`
in unspecified order; `dedup` fixes one order (the index contents never
influence search results, which is exactly what C9 proves). -/
def extractKeywords (uc : UseCase) : List String :=
  let text := (uc.title ++ " " ++ uc.description ++ " "
    ++ String.intercalate " " uc.tags).lower
  ((pySplit (normPunct text)).filter
    (fun w => decide (2 < w.length) && !(stopwords.contains w))).dedup

/-- Append a value to the list stored under a key, creating the entry if
absent (the dict update of `_build_index`). -/
def indexAdd (m : List (String × List String)) (key val : String) :
    List (String × List String) :=
  if m.any (fun kv => kv.1 == key) then
    m.map (fun kv => if kv.1 == key then (kv.1, kv.2 ++ [val]) else kv)
  else m ++ [(key, [val])]

/-- The keyword index built by `_build_index` (lines 33-39). -/
def buildKeywordIndex (db : List UseCase) : List (String × List String) :=
  db.foldl (fun m uc =>
    (extractKeywords uc).foldl (fun m2 kw => indexAdd m2 kw uc.id) m) []

/-- Append a value to the list stored under a category key. -/
def catIndexAdd (m : List (FPACategory × List String)) (key : FPACategory)
    (val : String) : List (FPACategory × List String) :=
  if m.any (fun kv => kv.1 == key) then
    m.map (fun kv => if kv.1 == key then (kv.1, kv.2 ++ [val]) else kv)
  else m ++ [(key, [val])]

/-- The category index built by `_build_index` (lines 41-44). -/
def buildCategoryIndex (db : List UseCase) : List (FPACategory × List String) :=
  db.foldl (fun m uc => catIndexAdd m uc.category uc.id) []

/-- `UseCaseSearcher`: the catalog plus the two derived indexes. -/
structure Searcher where
  database : List UseCase
  keyword_index : List (String × List String)
  category_index : List (FPACategory × List String)

/-- `UseCaseSearcher.__init__`: store the catalog and build both indexes. -/
def mkSearcher (db : List UseCase) : Searcher :=
  ⟨db, buildKeywordIndex db, buildCategoryIndex db⟩

/-- `UseCaseSearcher.search` as a method on the searcher object: its body
reads only `self.database`; the indexes are never consulted.  (Named
`searchMethod` because the plain function `search`, its extracted body,
already carries the source name.) -/
def Searcher.searchMethod (s : Searcher) (query : String)
    (categories : Option (List FPACategory)) (complexity : Option ComplexityLevel)
    (limit : ℕ) : List SearchResult :=
  search s.database query categories complexity limit

/-- Reference search following the spec's words (section 4.3): scan all
records, keep those passing every filter, score each one, keep positive
scores, sort descending by score with a stable sort, truncate to `limit`. -/
def searchNaiveSpec (db : List UseCase) (query : String)
    (categories : Option (List FPACategory)) (complexity : Option ComplexityLevel)
    (limit : ℕ) : List SearchResult :=
  let scored := ((db.filter (passesFilters categories complexity)).map
      (fun uc => mkResult uc query.lower (tokenSet (normPunct query.lower)))).filter
    (fun r => decide (0 < r.relevance_score))
  (sortDesc (fun r => r.relevance_score) scored).take limit

theorem lower_empty_str : ("" : String).lower = "" := rfl

/-- For the empty query every substring test succeeds, so every record
collects at least the 10.0 title and 5.0 description bonuses. -/
theorem calcRelevance_empty_query (uc : UseCase) (qk : List String) :
    15 ≤ (calcRelevance uc "" qk).1 := by
  rw [calcRelevance_fst]
  rw [if_pos (pyIn_empty_needle _), if_pos (pyIn_empty_needle _)]
  have h3 := promptsContrib_nonneg uc ""
  have h4 := benefitsContrib_nonneg uc ""
  have h5 : (0 : ℚ) ≤ 4 * ((uc.tags.filter
      (fun tag => pyIn tag.lower "" || pyIn "" tag.lower)).length : ℚ) := by
    positivity
  have h6 : (0 : ℚ) ≤ 2 * ((uc.tools_used.filter
      (fun t => pyIn t.lower "" || pyIn "" t.lower)).length : ℚ) := by
    positivity
  linarith

theorem length_search_empty_query (db : List UseCase)
    (cats : Option (List FPACategory)) (cx : Option ComplexityLevel) (limit : ℕ) :
    (search db "" cats cx limit).length =
      min limit ((db.filter (passesFilters cats cx)).length) := by
  unfold search
  rw [List.length_take, length_sortDesc]
  congr 1
  rw [collectResults_eq_filter_map]
  rw [List.filter_eq_self.mpr ?_, List.length_map]
  intro r hr
  obtain ⟨uc, _, rfl⟩ := List.mem_map.mp hr
  simp only [mkResult, decide_eq_true_eq]
  rw [lower_empty_str]
  have := calcRelevance_empty_query uc (tokenSet (normPunct ""))
  linarith

theorem search_length_le (db : List UseCase) (q : String)
    (cats : Option (List FPACategory)) (cx : Option ComplexityLevel) (limit : ℕ) :
    (search db q cats cx limit).length ≤ limit := by
  unfold search
  rw [List.length_take]
  exact min_le_left _ _

theorem search_pairwise (db : List UseCase) (q : String)
    (cats : Option (List FPACategory)) (cx : Option ComplexityLevel) (limit : ℕ) :
    (search db q cats cx limit).Pairwise
      (fun a b => b.relevance_score ≤ a.relevance_score) := by
  unfold search
  exact (pairwise_sortDesc _ _).sublist ((List.take_prefix _ _).sublist)

/-- The distinct-count overlap used by the code equals the cardinality of
the set intersection named by the spec. -/
theorem interCount_eq_card (a b : List String) :
    interCount a.dedup b = (a.toFinset ∩ b.toFinset).card := by
  unfold interCount
  have hnd : (a.dedup.filter (fun w => decide (w ∈ b))).Nodup :=
    (a.nodup_dedup).filter _
  rw [← List.toFinset_card_of_nodup hnd]
  congr 1
  ext w
  simp [List.mem_toFinset, List.mem_filter, List.mem_dedup, Finset.mem_inter]

/-- The code's per-record similarity score, rewritten as the spec states
it (set-intersection cardinalities, spec weight order). -/
theorem simScore_eq_spec (uc src : UseCase) :
    simScore uc src =
      (if uc.category = src.category then (5 : ℚ) else 0)
      + 2 * ((uc.tags.toFinset ∩ src.tags.toFinset).card : ℚ)
      + (if uc.complexity = src.complexity then (1 : ℚ) else 0)
      + (3 / 2) * ((uc.tools_used.toFinset ∩ src.tools_used.toFinset).card : ℚ) := by
  unfold simScore
  rw [interCount_eq_card, interCount_eq_card]
  simp only [beq_iff_eq]
  ring

theorem foldl_add_two (p : String → Bool) (l : List String) (s : ℚ) :
    l.foldl (fun s2 b => if p b then s2 + 2 else s2) s
      = s + 2 * ((l.filter p).length : ℚ) := by
  induction l generalizing s with
  | nil => simp
  | cons b bs ih =>
    simp only [List.foldl_cons]
    by_cases h : p b
    · rw [if_pos h, ih, List.filter_cons_of_pos h, List.length_cons]
      push_cast
      ring
    · rw [if_neg h, ih, List.filter_cons_of_neg h]

/-- The challenges block adds 4.0 for each challenge found in the
description and 2.0 for each (challenge, benefit) pair where the benefit
contains the challenge. -/
theorem challengesScore_eq (uc : UseCase) (chs : List String) :
    challengesScore uc chs =
      4 * ((chs.filter (fun ch => pyIn ch.lower uc.description.lower)).length : ℚ)
      + 2 * ((chs.map (fun ch =>
          ((uc.benefits.filter (fun b => pyIn ch.lower b.lower)).length : ℚ))).sum) := by
  suffices h : ∀ s : ℚ, chs.foldl (fun s challenge =>
      let cl := challenge.lower
      let s1 := if pyIn cl uc.description.lower then s + 4 else s
      uc.benefits.foldl (fun s2 b => if pyIn cl b.lower then s2 + 2 else s2) s1) s
      = s + 4 * ((chs.filter (fun ch => pyIn ch.lower uc.description.lower)).length : ℚ)
      + 2 * ((chs.map (fun ch =>
          ((uc.benefits.filter (fun b => pyIn ch.lower b.lower)).length : ℚ))).sum) by
    have h0 := h 0
    unfold challengesScore
    rw [h0]
    ring
  induction chs with
  | nil => intro s; simp
  | cons ch t ih =>
    intro s
    rw [List.foldl_cons]
    simp only []
    rw [foldl_add_two, ih]
    cases hd : pyIn ch.lower uc.description.lower with
    | true =>
      simp only [List.filter_cons, List.map_cons, List.sum_cons, hd, if_true,
        List.length_cons]
      push_cast
      ring
    | false =>
      simp only [List.filter_cons, List.map_cons, List.sum_cons, hd,
        Bool.false_eq_true, if_false]
      ring

/-- The merge accumulator has at most one entry per record id (a Python
dict cannot hold duplicate keys). -/
def keysNodup (m : List (String × SearchResult)) : Prop :=
  (m.map Prod.fst).Nodup

theorem keysNodup_addResult (m : List (String × SearchResult)) (r : SearchResult)
    (h : keysNodup m) : keysNodup (addResult m r) := by
  unfold addResult
  split
  · unfold keysNodup at *
    have hkeys : (m.map (fun kv =>
        if kv.1 == r.use_case.id then
          (kv.1, SearchResult.mk kv.2.use_case
            (kv.2.relevance_score + r.relevance_score) kv.2.matched_fields)
        else kv)).map Prod.fst = m.map Prod.fst := by
      rw [List.map_map]
      apply List.map_congr_left
      intro kv _
      by_cases hk : kv.1 = r.use_case.id <;> simp [hk]
    rwa [hkeys]
  · rename_i hany
    unfold keysNodup at *
    rw [List.map_append, List.nodup_append]
    refine ⟨h, List.nodup_singleton _, ?_⟩
    intro a ha1 ha2
    simp only [List.map_cons, List.map_nil, List.mem_singleton] at ha2
    subst ha2
    obtain ⟨kv, hkv, hfst⟩ := List.mem_map.mp ha1
    apply hany
    rw [List.any_eq_true]
    exact ⟨kv, hkv, by simp [hfst]⟩

theorem accScore_append (m1 m2 : List (String × SearchResult)) (ucId : String) :
    accScore (m1 ++ m2) ucId = accScore m1 ucId + accScore m2 ucId := by
  induction m1 with
  | nil => simp [accScore]
  | cons kv t ih =>
    simp only [List.cons_append, accScore, List.append_eq, ih]
    ring

theorem accScore_map_add (rid : String) (w : ℚ) (ucId : String)
    (m : List (String × SearchResult)) (h : keysNodup m)
    (hmem : m.any (fun kv => kv.1 == rid) = true) :
    accScore (m.map (fun kv =>
      if kv.1 == rid then
        (kv.1, SearchResult.mk kv.2.use_case (kv.2.relevance_score + w) kv.2.matched_fields)
      else kv)) ucId
      = accScore m ucId + (if rid == ucId then w else 0) := by
  induction m with
  | nil => simp at hmem
  | cons kv t ih =>
    unfold keysNodup at h
    rw [List.map_cons, List.nodup_cons] at h
    by_cases hk : (kv.1 == rid) = true
    · have hrid : kv.1 = rid := by simpa using hk
      have htail : t.map (fun kv =>
          if kv.1 == rid then
            (kv.1, SearchResult.mk kv.2.use_case (kv.2.relevance_score + w) kv.2.matched_fields)
          else kv) = t := by
        conv_rhs => rw [← List.map_id t]
        apply List.map_congr_left
        intro kv' hkv'
        have hne : (kv'.1 == rid) = false := by
          rw [beq_eq_false_iff_ne]
          intro hcontra
          apply h.1
          rw [hrid, ← hcontra]
          exact List.mem_map_of_mem Prod.fst hkv'
        simp [hne]
      rw [List.map_cons, htail, if_pos hk]
      by_cases hu : rid = ucId
      · have h1 : (kv.1 == ucId) = true := by rw [hrid]; simp [hu]
        have h2 : (rid == ucId) = true := by simp [hu]
        simp only [accScore, h1, h2, if_true]
        ring
      · have h1 : (kv.1 == ucId) = false := by
          rw [hrid]; exact beq_eq_false_iff_ne.mpr hu
        have h2 : (rid == ucId) = false := beq_eq_false_iff_ne.mpr hu
        simp only [accScore, h1, h2, Bool.false_eq_true, if_false]
        ring
    · have hmem' : t.any (fun kv => kv.1 == rid) = true := by
        rw [List.any_cons] at hmem
        rcases Bool.or_eq_true_iff.mp hmem with h1 | h2
        · exact absurd h1 hk
        · exact h2
      rw [List.map_cons, if_neg hk]
      simp only [accScore]
      rw [ih h.2 hmem']
      ring

theorem accScore_addResult (m : List (String × SearchResult)) (r : SearchResult)
    (ucId : String) (h : keysNodup m) :
    accScore (addResult m r) ucId =
      accScore m ucId + (if r.use_case.id == ucId then r.relevance_score else 0) := by
  unfold addResult
  split
  · rename_i hany
    exact accScore_map_add r.use_case.id r.relevance_score ucId m h hany
  · rw [accScore_append]
    simp [accScore]

theorem keysNodup_foldl (l : List SearchResult) (m : List (String × SearchResult))
    (h : keysNodup m) : keysNodup (l.foldl addResult m) := by
  induction l generalizing m with
  | nil => exact h
  | cons r t ih => exact ih (addResult m r) (keysNodup_addResult m r h)

theorem accScore_foldl (l : List SearchResult) (m : List (String × SearchResult))
    (ucId : String) (h : keysNodup m) :
    accScore (l.foldl addResult m) ucId = accScore m ucId + idScore l ucId := by
  induction l generalizing m with
  | nil => simp [idScore]
  | cons r t ih =>
    rw [List.foldl_cons, ih (addResult m r) (keysNodup_addResult m r h),
      accScore_addResult m r ucId h]
    simp only [idScore]
    ring

theorem keysNodup_phrase_foldl (db : List UseCase) (phrases : List String)
    (m : List (String × SearchResult)) (h : keysNodup m) :
    keysNodup (phrases.foldl
      (fun m p => (search db p none none 5).foldl addResult m) m) := by
  induction phrases generalizing m with
  | nil => exact h
  | cons p t ih => exact ih _ (keysNodup_foldl _ m h)

theorem accScore_phrase_foldl (db : List UseCase) (phrases : List String)
    (m : List (String × SearchResult)) (ucId : String) (h : keysNodup m) :
    accScore (phrases.foldl
      (fun m p => (search db p none none 5).foldl addResult m) m) ucId
      = accScore m ucId
        + (phrases.map (fun p => idScore (search db p none none 5) ucId)).sum := by
  induction phrases generalizing m with
  | nil => simp
  | cons p t ih =>
    rw [List.foldl_cons, ih _ (keysNodup_foldl _ m h),
      accScore_foldl _ m ucId h, List.map_cons, List.sum_cons]
    ring

theorem keysNodup_combinedResults (db : List UseCase) (t : String) :
    keysNodup (combinedResults db t) :=
  keysNodup_phrase_foldl db (foundPhrases t) [] List.nodup_nil

theorem accScore_combinedResults (db : List UseCase) (t : String) (ucId : String) :
    accScore (combinedResults db t) ucId =
      ((foundPhrases t).map (fun p => idScore (search db p none none 5) ucId)).sum := by
  have h := accScore_phrase_foldl db (foundPhrases t) [] ucId List.nodup_nil
  unfold combinedResults
  rw [h]
  simp [accScore]

/-- A concrete record builder for exercising the engine (fields the
searcher never reads get fixed neutral values). -/
def mkUC (ucId title description : String) (cat : FPACategory) (cx : ComplexityLevel)
    (tags benefits prompts tools : List String) : UseCase :=
  ⟨ucId, title, description, cat, [], cx, ImplementationTime.HOURS,
   benefits, prompts, tools, "src", none, none, tags⟩

def ucAlpha : UseCase := mkUC "u1" "Alpha Budget" "track alpha spending"
  FPACategory.BUDGETING ComplexityLevel.BEGINNER ["alpha"] ["less work"] ["do alpha"] ["excel"]

def dbAlpha : List UseCase := [ucAlpha]

def ucAA (n : String) : UseCase :=
  mkUC n "aa" "" FPACategory.BUDGETING ComplexityLevel.BEGINNER [] [] [] []

/-- Eleven identical records (apart from ids), all with `"aa"` in the
title: one more than the default result limit. -/
def dbElevenAA : List UseCase :=
  ["u1", "u2", "u3", "u4", "u5", "u6", "u7", "u8", "u9", "u10", "u11"].map ucAA

def ucChal : UseCase := mkUC "c1" "t" "alpha beta"
  FPACategory.BUDGETING ComplexityLevel.BEGINNER [] [] [] []

/-- C1: the relevance score is exactly the spec's weight table — title:
10.0 on exact substring else 3.0 per overlapping token; description: 5.0
else 1.5 per overlapping token (exact match and fallback mutually
exclusive per field); tags: 4.0 per matching tag; prompts: 3.0 for at
most the first matching prompt; tools: 2.0 per matching tool; benefits:
1.5 for at most the first matching benefit — and every record appearing
in search results has positive score (score 0 is excluded). -/
theorem relevance_score_weight_table (uc : UseCase) (q : String) (db : List UseCase)
    (cats : Option (List FPACategory)) (cx : Option ComplexityLevel) (limit : ℕ) :
    (calcRelevance uc q.lower (tokenSet (normPunct q.lower))).1 =
      (if pyIn q.lower uc.title.lower then (10 : ℚ)
       else (interCount (tokenSet (normPunct q.lower)) (pySplit uc.title.lower) : ℚ) * 3)
      + (if pyIn q.lower uc.description.lower then (5 : ℚ)
         else (interCount (tokenSet (normPunct q.lower)) (pySplit uc.description.lower) : ℚ)
           * (3 / 2))
      + 4 * ((uc.tags.filter
          (fun tag => pyIn tag.lower q.lower || pyIn q.lower tag.lower)).length : ℚ)
      + (if uc.example_prompts.any (fun p => pyIn q.lower p.lower) then (3 : ℚ) else 0)
      + 2 * ((uc.tools_used.filter
          (fun t => pyIn t.lower q.lower || pyIn q.lower t.lower)).length : ℚ)
      + (if uc.benefits.any (fun b => pyIn q.lower b.lower) then (3 / 2 : ℚ) else 0)
    ∧ (search db q cats cx limit).all (fun r => decide (0 < r.relevance_score)) = true := by
  constructor
  · exact calcRelevance_fst uc q.lower (tokenSet (normPunct q.lower))
  · rw [List.all_eq_true]
    intro r hr
    exact decide_eq_true (pos_of_mem_search db q cats cx limit r hr)

/-- C2 counterexample: in Python the empty string is a substring of every
string, so the empty query does not give score 0 — on a one-record
catalog it scores 25.5 and `search("")` returns one result, not none. -/
theorem empty_query_counterexample :
    search dbAlpha "" none none 10 ≠ [] ∧
    (calcRelevance ucAlpha "" (tokenSet (normPunct ""))).1 = 51 / 2 := by
  with_unfolding_all decide

/-- C2 amended: the empty query matches every record — the score is at
least 15.0 (10.0 title + 5.0 description, plus nonnegative tag, prompt,
tool and benefit bonuses) — so `search("")` returns
`min limit (number of records passing the filters)` results rather than
an empty sequence. -/
theorem empty_query_matches_every_record (db : List UseCase)
    (cats : Option (List FPACategory)) (cx : Option ComplexityLevel) (limit : ℕ) :
    (∀ uc : UseCase, 15 ≤ (calcRelevance uc "" (tokenSet (normPunct ""))).1) ∧
    (search db "" cats cx limit).length =
      min limit ((db.filter (passesFilters cats cx)).length) :=
  ⟨fun uc => calcRelevance_empty_query uc _, length_search_empty_query db cats cx limit⟩

/-- C3: search results never exceed `limit`, are sorted in non-increasing
score order, and the sort is stable: for every score value, the results
with that score form a prefix of the positively-scored records with that
score in original catalog order (`collectResults` enumerates the catalog
in order). -/
theorem search_bounded_sorted_stable (db : List UseCase) (q : String)
    (cats : Option (List FPACategory)) (cx : Option ComplexityLevel) (limit : ℕ) :
    (search db q cats cx limit).length ≤ limit ∧
    (search db q cats cx limit).Pairwise
      (fun a b => b.relevance_score ≤ a.relevance_score) ∧
    ∀ s : ℚ, (search db q cats cx limit).filter (fun r => decide (r.relevance_score = s))
      <+: (collectResults db q cats cx).filter (fun r => decide (r.relevance_score = s)) := by
  refine ⟨search_length_le db q cats cx limit, search_pairwise db q cats cx limit, ?_⟩
  intro s
  unfold search
  have h1 := (List.take_prefix limit
    (sortDesc (fun r => r.relevance_score) (collectResults db q cats cx))).filter
      (fun r => decide (r.relevance_score = s))
  rwa [filter_keyeq_sortDesc] at h1

/-- C5: a similarity lookup never returns the source record (every
returned record has a different id), and an unknown id yields the empty
sequence rather than an error. -/
theorem similar_never_returns_source (db : List UseCase) (ucId : String) (limit : ℕ) :
    (getById db ucId = none → getSimilarUseCases db ucId limit = []) ∧
    ∀ uc ∈ getSimilarUseCases db ucId limit, uc.id ≠ ucId := by
  constructor
  · intro h
    unfold getSimilarUseCases
    rw [h]
  · intro uc huc
    unfold getSimilarUseCases at huc
    cases hid : getById db ucId with
    | none =>
      rw [hid] at huc
      simp at huc
    | some src =>
      rw [hid] at huc
      obtain ⟨p, hp, rfl⟩ := List.mem_map.mp huc
      have hp2 : p ∈ sortDesc (fun p => p.2)
          ((db.filter (fun uc => uc.id != ucId)).filterMap (fun uc =>
            if 0 < simScore uc src then some (uc, simScore uc src) else none)) :=
        List.mem_of_mem_take hp
      have hp3 := (mem_sortDesc _ p _).mp hp2
      obtain ⟨uc', huc', heq⟩ := List.mem_filterMap.mp hp3
      have hne : (uc'.id != ucId) = true := (List.mem_filter.mp huc').2
      by_cases h0 : 0 < simScore uc' src
      · rw [if_pos h0, Option.some_inj] at heq
        rw [← heq]
        simpa using hne
      · rw [if_neg h0] at heq
        exact absurd heq (Option.noConfusion)

theorem similar_never_returns_source_witness :
    getSimilarUseCases dbAlpha "nope" 5 = [] ∧ (ucAA "u2").id ≠ "u1" :=
  ⟨(similar_never_returns_source dbAlpha "nope" 5).1 (by with_unfolding_all decide),
   (similar_never_returns_source dbElevenAA "u1" 5).2 (ucAA "u2")
     (by with_unfolding_all decide)⟩

/-- C10: passing an empty category list is the same as passing no
category filter at all — Python's `if categories and …` treats the empty
list as falsy, so the empty list disables the filter instead of
excluding every record. -/
theorem empty_category_list_is_no_filter (db : List UseCase) (q : String)
    (cx : Option ComplexityLevel) (limit : ℕ) :
    search db q (some []) cx limit = search db q none cx limit := rfl

/-- C8 counterexample: truncation can drop a title-matching record.  With
eleven records whose titles all contain the query `"aa"`, all scores tie,
the stable sort keeps catalog order, and the default limit 10 cuts off
the eleventh record even though the query is a substring of its title. -/
theorem title_match_dropped_when_over_limit :
    pyIn (String.lower "aa") (String.lower (ucAA "u11").title) = true ∧
    (ucAA "u11") ∈ dbElevenAA ∧
    ((search dbElevenAA "aa" none none 10).map (fun r => r.use_case.id)).contains "u11"
      = false := by
  refine ⟨by decide, by decide, by with_unfolding_all decide⟩

/-- C8 amended: if the query is a case-insensitive substring of a catalog
record's title and the limit is at least the catalog size (so truncation
cannot interfere), then `search` includes that record with relevance at
least the 10.0 title component and `"title"` among the matched fields. -/
theorem title_match_included_within_limit (db : List UseCase) (q : String)
    (uc : UseCase) (limit : ℕ) (hmem : uc ∈ db)
    (ht : pyIn q.lower uc.title.lower = true) (hlim : db.length ≤ limit) :
    ∃ r ∈ search db q none none limit,
      r.use_case = uc ∧ 10 ≤ r.relevance_score ∧ "title" ∈ r.matched_fields := by
  have hfilter : db.filter (passesFilters none none) = db := by
    apply List.filter_eq_self.mpr
    intro a _
    rfl
  have h10 := calcRelevance_fst_ge_ten uc q.lower (tokenSet (normPunct q.lower)) ht
  have hpos : (0 : ℚ) < (calcRelevance uc q.lower (tokenSet (normPunct q.lower))).1 :=
    lt_of_lt_of_le (by norm_num) h10
  have hmem2 : mkResult uc q.lower (tokenSet (normPunct q.lower))
      ∈ collectResults db q none none := by
    rw [collectResults_eq_filter_map]
    apply List.mem_filter.mpr
    refine ⟨?_, decide_eq_true hpos⟩
    rw [hfilter]
    exact List.mem_map_of_mem _ hmem
  have hlen : (collectResults db q none none).length ≤ limit := by
    rw [collectResults_eq_filter_map, hfilter]
    calc ((db.map (fun uc => mkResult uc q.lower (tokenSet (normPunct q.lower)))).filter
            (fun r => decide (0 < r.relevance_score))).length
        ≤ (db.map (fun uc => mkResult uc q.lower (tokenSet (normPunct q.lower)))).length :=
          List.length_filter_le _ _
      _ = db.length := List.length_map _ _
      _ ≤ limit := hlim
  refine ⟨mkResult uc q.lower (tokenSet (normPunct q.lower)), ?_, rfl, h10,
    title_mem_calcRelevance uc q.lower (tokenSet (normPunct q.lower)) ht⟩
  unfold search
  rw [List.take_of_length_le (by rw [length_sortDesc]; exact hlen)]
  exact (mem_sortDesc _ _ _).mpr hmem2

theorem title_match_included_witness :
    ∃ r ∈ search dbAlpha "Alp" none none 10,
      r.use_case = ucAlpha ∧ 10 ≤ r.relevance_score ∧ "title" ∈ r.matched_fields :=
  title_match_included_within_limit dbAlpha "Alp" ucAlpha 10
    (by decide) (by decide) (by decide)

/-- C6: for a known source id, the similarity lookup is exactly the
spec's pipeline — every other record scored 5.0 for same category, plus
2.0 per element of the tag-set intersection, plus 1.0 for same
complexity, plus 1.5 per element of the tool-set intersection; positive
scores kept, sorted descending (stable), truncated to `limit`, scores
dropped. -/
theorem similar_scoring_formula (db : List UseCase) (ucId : String) (limit : ℕ)
    (src : UseCase) (h : getById db ucId = some src) :
    getSimilarUseCases db ucId limit =
      ((sortDesc (fun p => p.2)
        (((db.filter (fun uc => uc.id != ucId)).map (fun uc =>
            (uc, (if uc.category = src.category then (5 : ℚ) else 0)
              + 2 * ((uc.tags.toFinset ∩ src.tags.toFinset).card : ℚ)
              + (if uc.complexity = src.complexity then (1 : ℚ) else 0)
              + (3 / 2) * ((uc.tools_used.toFinset ∩ src.tools_used.toFinset).card : ℚ)))).filter
          (fun p => decide (0 < p.2)))).take limit).map Prod.fst := by
  unfold getSimilarUseCases
  rw [h]
  have hscored : (db.filter (fun uc => uc.id != ucId)).filterMap (fun uc =>
      if 0 < simScore uc src then some (uc, simScore uc src) else none)
      = ((db.filter (fun uc => uc.id != ucId)).map
          (fun uc => (uc, simScore uc src))).filter (fun p => decide (0 < p.2)) :=
    filterMap_ite_pos (fun uc => (uc, simScore uc src)) Prod.snd _
  have hmap : (db.filter (fun uc => uc.id != ucId)).map
      (fun uc => (uc, simScore uc src))
      = (db.filter (fun uc => uc.id != ucId)).map (fun uc =>
          (uc, (if uc.category = src.category then (5 : ℚ) else 0)
            + 2 * ((uc.tags.toFinset ∩ src.tags.toFinset).card : ℚ)
            + (if uc.complexity = src.complexity then (1 : ℚ) else 0)
            + (3 / 2) * ((uc.tools_used.toFinset ∩ src.tools_used.toFinset).card : ℚ))) :=
    List.map_congr_left (fun uc _ => by rw [simScore_eq_spec])
  simp only [hscored, hmap]

theorem similar_scoring_formula_witness :
    getSimilarUseCases dbElevenAA "u1" 5 =
      ((sortDesc (fun p => p.2)
        (((dbElevenAA.filter (fun uc => uc.id != "u1")).map (fun uc =>
            (uc, (if uc.category = (ucAA "u1").category then (5 : ℚ) else 0)
              + 2 * ((uc.tags.toFinset ∩ (ucAA "u1").tags.toFinset).card : ℚ)
              + (if uc.complexity = (ucAA "u1").complexity then (1 : ℚ) else 0)
              + (3 / 2) * ((uc.tools_used.toFinset
                  ∩ (ucAA "u1").tools_used.toFinset).card : ℚ)))).filter
          (fun p => decide (0 < p.2)))).take 5).map Prod.fst :=
  similar_scoring_formula dbElevenAA "u1" 5 (ucAA "u1") (by decide)

/-- C7 counterexample: the description bonus is 4.0 per matching
challenge, not a single bonus.  With two challenges both contained in the
description (and no benefits), the code contributes 8.0 where the claim's
single-bonus formula gives 4.0. -/
theorem challenge_bonus_counterexample :
    recommendScore ucChal ⟨none, some ["alpha", "beta"], none, none⟩ = 8 ∧
    ((if (["alpha", "beta"].any (fun ch => pyIn ch.lower ucChal.description.lower))
        then (4 : ℚ) else 0)
      + 2 * ((ucChal.benefits.filter
          (fun b => ["alpha", "beta"].any (fun ch => pyIn ch.lower b.lower))).length : ℚ)) = 4 ∧
    (8 : ℚ) ≠ 4 := by
  with_unfolding_all decide

/-- C7 amended: with a challenges list present, `recommend`'s per-record
score gains exactly 4.0 for EACH challenge that is a case-insensitive
substring of the description, plus 2.0 for each (challenge, benefit) pair
where the benefit contains the challenge (independent of the description
match). -/
theorem challenges_add_per_matching_challenge (uc : UseCase)
    (tools : Option (List String)) (role exp : Option String) (chs : List String) :
    recommendScore uc ⟨tools, some chs, role, exp⟩ =
      recommendScore uc ⟨tools, none, role, exp⟩
      + 4 * ((chs.filter (fun ch => pyIn ch.lower uc.description.lower)).length : ℚ)
      + 2 * ((chs.map (fun ch =>
          ((uc.benefits.filter (fun b => pyIn ch.lower b.lower)).length : ℚ))).sum) := by
  show toolsScore uc tools + challengesScore uc chs + roleScore uc role + expScore uc exp
    = toolsScore uc tools + 0 + roleScore uc role + expScore uc exp
      + 4 * ((chs.filter (fun ch => pyIn ch.lower uc.description.lower)).length : ℚ)
      + 2 * ((chs.map (fun ch =>
          ((uc.benefits.filter (fun b => pyIn ch.lower b.lower)).length : ℚ))).sum)
  rw [challengesScore_eq]
  ring

/-- C9: the two indexes are a pure cache — `search` reads only the
catalog, so its results are identical for any index contents (in
particular the freshly built ones), and coincide with the spec's naive
scan over all records. -/
theorem search_ignores_index (dbase : List UseCase)
    (kidx : List (String × List String)) (cidx : List (FPACategory × List String))
    (q : String) (cats : Option (List FPACategory)) (cx : Option ComplexityLevel)
    (limit : ℕ) :
    Searcher.searchMethod ⟨dbase, kidx, cidx⟩ q cats cx limit
      = Searcher.searchMethod (mkSearcher dbase) q cats cx limit ∧
    Searcher.searchMethod ⟨dbase, kidx, cidx⟩ q cats cx limit
      = searchNaiveSpec dbase q cats cx limit := by
  constructor
  · rfl
  · show search dbase q cats cx limit = searchNaiveSpec dbase q cats cx limit
    unfold search searchNaiveSpec
    rw [collectResults_eq_filter_map]

/-- C4: if no key phrase occurs in the text, `searchByPrompt` is exactly
plain `search`; otherwise the merged accumulator holds each record id
once, with a score equal to the exact sum of that id's relevance scores
over all per-phrase searches (limit 5 each), and the final list is sorted
by descending accumulated score and truncated to 10. -/
theorem searchByPrompt_fallback_merge_sum (db : List UseCase) (t : String) :
    (foundPhrases t = [] → searchByPrompt db t = search db t none none 10) ∧
    keysNodup (combinedResults db t) ∧
    (∀ ucId : String, accScore (combinedResults db t) ucId =
      ((foundPhrases t).map (fun p => idScore (search db p none none 5) ucId)).sum) ∧
    (searchByPrompt db t).Pairwise (fun a b => b.relevance_score ≤ a.relevance_score) ∧
    (searchByPrompt db t).length ≤ 10 := by
  refine ⟨?_, keysNodup_combinedResults db t, accScore_combinedResults db t, ?_, ?_⟩
  · intro h
    unfold searchByPrompt
    rw [if_pos (by rw [h]; rfl)]
  · unfold searchByPrompt
    split
    · exact search_pairwise db t none none 10
    · exact (pairwise_sortDesc _ _).sublist ((List.take_prefix _ _).sublist)
  · unfold searchByPrompt
    split
    · exact search_length_le db t none none 10
    · rw [List.length_take]
      exact min_le_left _ _

theorem searchByPrompt_fallback_merge_sum_witness :
    searchByPrompt dbAlpha "zzz qqq" = search dbAlpha "zzz qqq" none none 10 ∧
    accScore (combinedResults dbAlpha "budget forecast") "u1" =
      ((foundPhrases "budget forecast").map
        (fun p => idScore (search dbAlpha p none none 5) "u1")).sum :=
  ⟨(searchByPrompt_fallback_merge_sum dbAlpha "zzz qqq").1 (by decide),
   (searchByPrompt_fallback_merge_sum dbAlpha "budget forecast").2.2.1 "u1"⟩
